import Mathlib

/-!
Shallow embedding of `source/RemoteWiring/RemoteDevice.cpp`: the pin/port
state cache, the public pin API, the inbound report decoders and the
capability-response parser, together with theorems checking the
specification's claims about them.

Machine integers are modelled as `Nat`; a `uint8_t` store or cast is an
explicit `% 256` (or stays below 256 because its operands do), and the
bitwise operators mirror the C++ expressions bit for bit.
-/

namespace RemoteWiring

/-- Modelled from the spec: the numeric values of the `PinMode` enum live in
`RemoteDevice.h`, which is not among the provided sources.  The spec names
the modes (§3), its capability example (§8) fixes `INPUT = 0x00` and
`ANALOG = 0x02` (with `0x01` the second byte of the 4-byte INPUT
descriptor), and the wire frames of §6 are the standard Firmata opcodes,
whose mode table assigns `OUTPUT = 0x01`, `PWM = 0x03`, `SERVO = 0x04`,
`I2C = 0x06` and `IGNORED = 0x7F`. -/
def PinMode.INPUT : Nat := 0x00

def PinMode.OUTPUT : Nat := 0x01

def PinMode.ANALOG : Nat := 0x02

def PinMode.PWM : Nat := 0x03

def PinMode.SERVO : Nat := 0x04

def PinMode.I2C : Nat := 0x06

def PinMode.IGNORED : Nat := 0x7F

/-- The cached device state of a `RemoteDevice` instance: the per-pin mode
cache `_pin_mode`, the per-port digital value bytes `_digital_port`, the
per-port subscription masks `_subscribed_ports`, the per-analog-index
value cache `_analog_pins`, and the capability summary
`_total_pins` / `_analog_offset` / `_num_analog_pins`.  The C++ arrays are
modelled as total maps from the index to the stored value. -/
structure RemoteDevice where
  pin_mode : Nat → Nat
  digital_port : Nat → Nat
  subscribed_ports : Nat → Nat
  analog_pins : Nat → Nat
  total_pins : Nat
  analog_offset : Nat
  num_analog_pins : Nat

/-- `getPinMap`, port half: `*port = pin / 8`. -/
def pinPort (pin : Nat) : Nat := pin / 8

/-- `getPinMap`, mask half: `*port_mask = 1 << (pin % 8)`. -/
def pinMask (pin : Nat) : Nat := 1 <<< (pin % 8)

/-- The C++ `~mask` as it acts on a `uint8_t` store: two's-complement
negation truncated to the low 8 bits that the byte store keeps. -/
def byteNot (mask : Nat) : Nat := 255 ^^^ mask

/-- `RemoteDevice::pinMode(pin_, mode_)`, cache effect: if the new mode is
`INPUT`, set the pin's bit in its port's subscription mask; otherwise, if
the previous cached mode was `INPUT`, clear that bit.  If transitioning
into `OUTPUT` from a non-`OUTPUT` mode, clear the pin's bit in the digital
port byte.  Finally store the new cached mode.  (The protocol writes to
`_firmata` carry no cached state and are not modelled.) -/
def pinMode (s : RemoteDevice) (pin mode : Nat) : RemoteDevice :=
  let port := pinPort pin
  let mask := pinMask pin
  let subs :=
    if mode = PinMode.INPUT then
      Function.update s.subscribed_ports port (s.subscribed_ports port ||| mask)
    else if s.pin_mode pin = PinMode.INPUT then
      Function.update s.subscribed_ports port (s.subscribed_ports port &&& byteNot mask)
    else s.subscribed_ports
  let dig :=
    if mode = PinMode.OUTPUT ∧ s.pin_mode pin ≠ PinMode.OUTPUT then
      Function.update s.digital_port port (s.digital_port port &&& byteNot mask)
    else s.digital_port
  { s with
    subscribed_ports := subs
    digital_port := dig
    pin_mode := Function.update s.pin_mode pin mode }

/-- The tail of `RemoteDevice::digitalWrite`: set or clear the pin's bit in
its port's digital value byte (the subsequent `sendDigitalPort` touches no
cached state). -/
def writePort (s : RemoteDevice) (port mask : Nat) (state : Bool) : RemoteDevice :=
  { s with
    digital_port :=
      Function.update s.digital_port port
        (if state then s.digital_port port ||| mask
         else s.digital_port port &&& byteNot mask) }

/-- `RemoteDevice::digitalWrite(pin_, state_)`: requires cached mode
`OUTPUT`; auto-escalates from `PWM` via `pinMode`; any other mode returns
without touching state.  Then sets or clears the bit in the port byte. -/
def digitalWrite (s : RemoteDevice) (pin : Nat) (state : Bool) : RemoteDevice :=
  let port := pinPort pin
  let mask := pinMask pin
  if s.pin_mode pin ≠ PinMode.OUTPUT then
    if s.pin_mode pin = PinMode.PWM then
      writePort (pinMode s pin PinMode.OUTPUT) port mask state
    else s
  else writePort s port mask state

/-- `RemoteDevice::digitalRead(pin_)`: if the cached mode is `ANALOG`,
auto-corrects to `INPUT` via `pinMode`; then returns
`(_digital_port[port] & port_mask) > 0` together with the (possibly
updated) cache state. -/
def digitalRead (s : RemoteDevice) (pin : Nat) : Bool × RemoteDevice :=
  let port := pinPort pin
  let mask := pinMask pin
  let s2 :=
    if s.pin_mode pin ≠ PinMode.INPUT then
      if s.pin_mode pin = PinMode.ANALOG then pinMode s pin PinMode.INPUT else s
    else s
  (decide (0 < s2.digital_port port &&& mask), s2)

/-- `RemoteDevice::analogWrite(pin_, value_)`, cache effect: requires mode
`PWM`; auto-escalates from `OUTPUT` via `pinMode` followed by a direct
store of `PWM` into the mode cache; any other mode is a no-op.  The
`sendAnalog` frame carries no cached state. -/
def analogWrite (s : RemoteDevice) (pin value : Nat) : RemoteDevice :=
  if s.pin_mode pin ≠ PinMode.PWM then
    if s.pin_mode pin = PinMode.OUTPUT then
      let s2 := pinMode s pin PinMode.PWM
      { s2 with pin_mode := Function.update s2.pin_mode pin PinMode.PWM }
    else s
  else s

/-- `RemoteDevice::analogRead(uint8_t pin_)`: computes
`analog_pin_num = pin_ + _analog_offset` in `uint8_t` arithmetic, requires
the cached mode there to be `ANALOG`, auto-escalates from `INPUT` via
`pinMode`, and otherwise returns the sentinel `0xFFFF` untouched state.
On success the analog index `pin_` is bounds-checked against
`_num_analog_pins` before the value cache is read; out of range keeps the
sentinel. -/
def analogRead (s : RemoteDevice) (pin : Nat) : Nat × RemoteDevice :=
  let apn := (pin + s.analog_offset) % 256
  if s.pin_mode apn ≠ PinMode.ANALOG then
    if s.pin_mode apn = PinMode.INPUT then
      let s2 := pinMode s apn PinMode.ANALOG
      (if pin < s2.num_analog_pins then s2.analog_pins pin else 0xFFFF, s2)
    else (0xFFFF, s)
  else (if pin < s.num_analog_pins then s.analog_pins pin else 0xFFFF, s)

/-- `iswspace` on the characters relevant to the default C locale, as
consulted by `wcstol` while skipping leading whitespace. -/
def isWSpace (c : Char) : Bool :=
  c == ' ' || c == '\t' || c == '\n' || c == '\x0b' || c == '\x0c' || c == '\r'

/-- The digit-accumulation loop of `wcstol(..., 10)`: consume decimal
digits from the front, accumulating the value; stop at the first
non-digit. -/
def wcstolDigits (cs : List Char) (acc : Nat) : Nat :=
  match cs with
  | [] => acc
  | c :: rest => if c.isDigit then wcstolDigits rest (acc * 10 + (c.toNat - 48)) else acc

/-- `wcstol` clamps an out-of-range value to `LONG_MAX` / `LONG_MIN`
(32-bit `long` on the Windows targets this code compiles for). -/
def wcstolClamp (v : Int) : Int :=
  if v > 2147483647 then 2147483647
  else if v < -2147483648 then -2147483648
  else v

/-- `wcstol(cs, nullptr, 10)`: skip leading whitespace, read an optional
sign, then accumulate decimal digits (0 when no digit follows), ignoring
everything after the digit run. -/
def wcstol10 (cs : List Char) : Int :=
  match cs.dropWhile isWSpace with
  | '-' :: rest => wcstolClamp (-(wcstolDigits rest 0 : Int))
  | '+' :: rest => wcstolClamp ((wcstolDigits rest 0 : Int))
  | body => wcstolClamp ((wcstolDigits body 0 : Int))

/-- `RemoteDevice::parsePinFromAnalogString`: a valid string has at least
2 characters and starts with `'a'` or `'A'`; the rest is handed to
`wcstol(..., 10)`.  Because `wcstol` yields 0 both on error and on a
legitimate `"0"` suffix, a 0 result is accepted only when the second
character is literally `'0'`.  The `uint8_t` return truncates the parsed
`long`; failure is `static_cast<uint8_t>(-1) = 255`. -/
def parsePinFromAnalogString (name : List Char) : Nat :=
  if name.length < 2 then 255
  else
    match name with
    | [] => 255
    | c0 :: rest =>
      if c0 = 'a' ∨ c0 = 'A' then
        let parsed := wcstol10 rest
        if parsed = 0 ∧ rest.head? ≠ some '0' then 255
        else (parsed % 256).toNat
      else 255

/-- `RemoteDevice::analogRead(Platform::String^)`: parse the analog pin
name; on failure return the sentinel `0xFFFF`; on success call the numeric
overload at `parsed_pin + _analog_offset` (a `uint8_t` argument, hence the
`% 256`). -/
def analogReadName (s : RemoteDevice) (name : List Char) : Nat × RemoteDevice :=
  let parsed := parsePinFromAnalogString name
  if parsed = 255 then (0xFFFF, s)
  else analogRead s ((parsed + s.analog_offset) % 256)

/-- The event loop at the end of `RemoteDevice::onDigitalReport`: walk the
changed-bit byte `port_xor`, emitting `(port*8 + i, bit i of port_val)`
for every set bit. -/
def digitalEvents (port port_val : Nat) : Nat → Nat → List (Nat × Bool)
  | port_xor, i =>
    if h : port_xor = 0 then []
    else
      (if port_xor % 2 = 1 then [(port * 8 + i, port_val.testBit i)] else []) ++
        digitalEvents port port_val (port_xor / 2) (i + 1)
  termination_by port_xor _ => port_xor
  decreasing_by exact Nat.div_lt_self (Nat.pos_of_ne_zero h) (by omega)

/-- `RemoteDevice::onDigitalReport(port, raw)`: truncate the reported
value to a byte, compute `output_state = ~subscribed & digital` (bits of
output pins that are HIGH), OR it into the raw byte, diff against the
cached port byte, store the merged byte, and emit one event per changed
bit. -/
def onDigitalReport (s : RemoteDevice) (port raw : Nat) : RemoteDevice × List (Nat × Bool) :=
  let port_val0 := raw % 256
  let output_state := byteNot (s.subscribed_ports port) &&& s.digital_port port
  let port_val := port_val0 ||| output_state
  let port_xor := port_val ^^^ s.digital_port port
  ({ s with digital_port := Function.update s.digital_port port port_val },
   digitalEvents port port_val port_xor 0)

/-- `RemoteDevice::onAnalogReport(pin, value)`: store the value (a
`uint16_t`) into the analog cache at the pin (a `uint8_t`) and emit
exactly one `AnalogPinUpdatedEvent(pin, value)`. -/
def onAnalogReport (s : RemoteDevice) (pin value : Nat) : RemoteDevice × List (Nat × Nat) :=
  let p := pin % 256
  let v := value % 65536
  ({ s with analog_pins := Function.update s.analog_pins p v }, [(p, v)])

/-- `RemoteDevice::initialize`: zero the digital port bytes, the
subscription masks and the analog value cache, and fill the mode cache
with `OUTPUT` (the `memset` with value `PinMode::OUTPUT`). -/
def initializeDevice (s : RemoteDevice) : RemoteDevice :=
  { s with
    digital_port := fun _ => 0
    subscribed_ports := fun _ => 0
    analog_pins := fun _ => 0
    pin_mode := fun _ => PinMode.OUTPUT }

/-- A concrete device state used to instantiate theorems: the state
`initialize` establishes, with an empty capability summary. -/
def emptyDevice : RemoteDevice :=
  { pin_mode := fun _ => PinMode.OUTPUT
    digital_port := fun _ => 0
    subscribed_ports := fun _ => 0
    analog_pins := fun _ => 0
    total_pins := 0
    analog_offset := 0
    num_analog_pins := 0 }

/-- The capability-response scan of
`RemoteDevice::onPinCapabilityResponseReceived`, with the two nested loops
(outer `for` over pins, inner `while` over one descriptor) flattened over
the single shared index `i`: a `0x7F` byte ends the current descriptor
(`_total_pins++`, outer `++i`); an `INPUT` byte skips 4; an `ANALOG` byte
records `_analog_offset = _total_pins` when `_analog_offset` is still 0,
increments `_num_analog_pins` and falls through into the 2-byte skip
shared with `PWM`/`SERVO`/`I2C`; any other byte skips 1.  `mid` records
whether the scan is inside a descriptor (inner loop) when the payload
ends, in which case the pending `_total_pins++` after the inner loop still
fires.  Returns `(total_pins, analog_offset, num_analog_pins)`. -/
def capScan (data : List Nat) (mid : Bool) (i total offset nanalog : Nat) :
    Nat × Nat × Nat :=
  if h : i < data.length then
    if data[i] = PinMode.IGNORED then
      capScan data false (i + 1) (total + 1) offset nanalog
    else if data[i] = PinMode.INPUT then
      capScan data true (i + 4) total offset nanalog
    else if data[i] = PinMode.ANALOG then
      capScan data true (i + 2) total (if offset = 0 then total else offset) (nanalog + 1)
    else if data[i] = PinMode.PWM ∨ data[i] = PinMode.SERVO ∨ data[i] = PinMode.I2C then
      capScan data true (i + 2) total offset nanalog
    else
      capScan data true (i + 1) total offset nanalog
  else (if mid then total + 1 else total, offset, nanalog)
  termination_by data.length - i
  decreasing_by all_goals omega

/-- `RemoteDevice::onPinCapabilityResponseReceived`, parse phase: scan the
payload from index 0 with all three counters zeroed.  Returns
`(_total_pins, _analog_offset, _num_analog_pins)`. -/
def capParse (data : List Nat) : Nat × Nat × Nat :=
  capScan data false 0 0 0 0

/-- `RemoteDevice::onPinCapabilityResponseReceived`, full cache effect:
run the scan, store the capability summary, then `initialize()`. -/
def onPinCapabilityResponseReceived (s : RemoteDevice) (data : List Nat) : RemoteDevice :=
  let r := capParse data
  initializeDevice
    { s with total_pins := r.1, analog_offset := r.2.1, num_analog_pins := r.2.2 }

/-- Modelled from the spec's words (§4.1 failure mode, §7): the number of
complete, `0x7F`-terminated descriptors in a capability payload, walking
the bytes with the same per-mode skip widths as the parser, together with
a flag telling whether the payload ended in the middle of a descriptor
that never reached its terminator (`mid` again tracks being inside a
descriptor). -/
def completeDescriptorScan (data : List Nat) (mid : Bool) (i : Nat) : Nat × Bool :=
  if h : i < data.length then
    if data[i] = PinMode.IGNORED then
      let r := completeDescriptorScan data false (i + 1)
      (r.1 + 1, r.2)
    else if data[i] = PinMode.INPUT then
      completeDescriptorScan data true (i + 4)
    else if data[i] = PinMode.ANALOG then
      completeDescriptorScan data true (i + 2)
    else if data[i] = PinMode.PWM ∨ data[i] = PinMode.SERVO ∨ data[i] = PinMode.I2C then
      completeDescriptorScan data true (i + 2)
    else
      completeDescriptorScan data true (i + 1)
  else (0, mid)
  termination_by data.length - i
  decreasing_by all_goals omega

/-- The C10 invariant: a pin's bit in its port's subscription mask is set
exactly when the pin's cached mode is `INPUT`, for every pin a `uint8_t`
index can address. -/
def SubInv (s : RemoteDevice) : Prop :=
  ∀ p, p < 256 →
    ((s.subscribed_ports (pinPort p)).testBit (p % 8) = true ↔ s.pin_mode p = PinMode.INPUT)

/-- A concrete device whose every pin is cached in `PWM` mode, used to
instantiate the `analogRead` mode-guard theorem. -/
def pwmDevice : RemoteDevice :=
  { emptyDevice with pin_mode := fun _ => PinMode.PWM }

/-- A concrete device with `analog_offset = 1`, pin 1 in `ANALOG` mode,
pin 2 in `OUTPUT` mode, and analog value 42 cached at analog index 0,
used to exercise the named `analogRead` overload. -/
def offsetDevice : RemoteDevice :=
  { pin_mode := fun p => if p = 1 then PinMode.ANALOG else PinMode.OUTPUT
    digital_port := fun _ => 0
    subscribed_ports := fun _ => 0
    analog_pins := fun a => if a = 0 then 42 else 0
    total_pins := 8
    analog_offset := 1
    num_analog_pins := 3 }

/-- The same device with pin 2 also in `ANALOG` mode, so that the named
`analogRead` overload succeeds. -/
def offsetDevice2 : RemoteDevice :=
  { offsetDevice with
    pin_mode := fun p => if p = 1 ∨ p = 2 then PinMode.ANALOG else PinMode.OUTPUT }

theorem testBit_255_of_lt (j : Nat) (hj : j < 8) : Nat.testBit 255 j = true := by
  interval_cases j <;> rfl

theorem pinMask_eq (pin : Nat) : pinMask pin = 2 ^ (pin % 8) :=
  Nat.one_shiftLeft _

/-- Claim C1 (counterexample): on a freshly initialized device every pin is
cached `OUTPUT` with subscription bit clear and digital value LOW; yet a
digital report on port 0 carrying bit 5 as 1 overwrites the cached LOW bit
of output pin 5 to HIGH, so an output bit does not survive an inbound
report unconditionally. -/
theorem onDigitalReport_outputLow_counterexample :
    emptyDevice.pin_mode 5 = PinMode.OUTPUT ∧
    (emptyDevice.subscribed_ports 0).testBit 5 = false ∧
    (emptyDevice.digital_port 0).testBit 5 = false ∧
    ((onDigitalReport emptyDevice 0 32).1.digital_port 0).testBit 5 = true := by
  refine ⟨rfl, by decide, by decide, by decide⟩

/-- Claim C1 (amended): for a pin on the reported port whose subscription
bit is clear (the cached-OUTPUT case), the cached bit after the report is
the OR of its previous cached value with the reported raw bit: a HIGH
output bit survives every report, while a LOW output bit takes on the
reported bit. -/
theorem onDigitalReport_output_bits (s : RemoteDevice) (port raw j : Nat)
    (hj : j < 8) (hsub : (s.subscribed_ports port).testBit j = false) :
    ((onDigitalReport s port raw).1.digital_port port).testBit j =
      ((s.digital_port port).testBit j || (raw % 256).testBit j) := by
  have h255 := testBit_255_of_lt j hj
  simp only [onDigitalReport, byteNot, Function.update_same, Nat.testBit_lor,
    Nat.testBit_land, Nat.testBit_xor, hsub, h255]
  cases (s.digital_port port).testBit j <;> cases (raw % 256).testBit j <;> rfl

/-- Witness for the amended C1 theorem at a concrete state and report. -/
theorem onDigitalReport_output_bits_witness :
    ((onDigitalReport emptyDevice 0 32).1.digital_port 0).testBit 5 =
      ((emptyDevice.digital_port 0).testBit 5 || ((32 : Nat) % 256).testBit 5) :=
  onDigitalReport_output_bits emptyDevice 0 32 5 (by decide) (by decide)

unseal capScan in
/-- Claim C2 (counterexample): on the payload
`[0x00, 0x01, 0x02, 0x0A, 0x7F, 0x7F]` the parser reports 0 analog pins,
not 1: the 4-byte `INPUT` skip consumes the `(0x02, 0x0A)` pair, so the
`ANALOG` byte is never examined. -/
theorem capabilityExample_counterexample :
    (capParse [0x00, 0x01, 0x02, 0x0A, 0x7F, 0x7F]).2.2 ≠ 1 := by decide

unseal capScan in
/-- Claim C2 (amended): the capability parse of
`[0x00, 0x01, 0x02, 0x0A, 0x7F, 0x7F]` yields `total_pins = 2`,
`analog_offset = 0` and `num_analog_pins = 0`. -/
theorem capabilityExample_parse :
    capParse [0x00, 0x01, 0x02, 0x0A, 0x7F, 0x7F] = (2, 0, 0) := by decide

unseal capScan in
/-- Claim C3: on the payload `[0x02, 0x0A, 0x7F, 0x02, 0x0A, 0x7F]` the
first `ANALOG` capability byte is observed at pin index 0, but because the
capture guard tests `_analog_offset == 0` rather than a found-flag, the
second analog-capable pin overwrites the offset: the parse ends with
`analog_offset = 1` (and correctly counts 2 pins and 2 analog
occurrences). -/
theorem analogOffset_overwritten_at_zero :
    capParse [0x02, 0x0A, 0x7F, 0x02, 0x0A, 0x7F] = (2, 1, 2) := by decide

unseal capScan completeDescriptorScan in
/-- Claim C4 (counterexample): the payload `[0x00]` ends inside its first
descriptor without ever reaching a `0x7F` terminator, so it contains 0
complete descriptors, yet the parser reports `total_pins = 1`: the
post-inner-loop `_total_pins++` also counts the incomplete trailing
descriptor. -/
theorem incompleteDescriptor_counterexample :
    (capParse [0x00]).1 = 1 ∧ completeDescriptorScan [0x00] false 0 = (0, true) := by
  exact ⟨by decide, by decide⟩

/-- Claim C7: `analogRead` on a pin whose consulted cached mode (at index
`pin + _analog_offset`, a `uint8_t` sum) is neither `ANALOG` nor `INPUT`
returns the sentinel `0xFFFF` and leaves every piece of cached device
state unchanged. -/
theorem analogRead_wrong_mode_sentinel (s : RemoteDevice) (pin : Nat)
    (h1 : s.pin_mode ((pin + s.analog_offset) % 256) ≠ PinMode.ANALOG)
    (h2 : s.pin_mode ((pin + s.analog_offset) % 256) ≠ PinMode.INPUT) :
    analogRead s pin = (0xFFFF, s) := by
  simp [analogRead, h1, h2]

/-- Witness for the C7 theorem: a device cached in `PWM` mode
everywhere. -/
theorem analogRead_wrong_mode_sentinel_witness :
    analogRead pwmDevice 3 = (0xFFFF, pwmDevice) :=
  analogRead_wrong_mode_sentinel pwmDevice 3 (by decide) (by decide)

/-- Claim C9: an inbound analog report stores the value into the analog
cache at the pin and emits exactly one notification carrying
`(pin, value)`, unconditionally; a second, identical report on the same
pin again emits exactly that notification (no delta suppression). -/
theorem onAnalogReport_stores_and_notifies (s : RemoteDevice) (pin value : Nat)
    (hp : pin < 256) (hv : value < 65536) :
    (onAnalogReport s pin value).1.analog_pins pin = value ∧
    (onAnalogReport s pin value).2 = [(pin, value)] ∧
    (onAnalogReport (onAnalogReport s pin value).1 pin value).2 = [(pin, value)] := by
  have h1 : pin % 256 = pin := Nat.mod_eq_of_lt hp
  have h2 : value % 65536 = value := Nat.mod_eq_of_lt hv
  simp [onAnalogReport, h1, h2]

/-- Witness for the C9 theorem at a concrete state and report. -/
theorem onAnalogReport_stores_and_notifies_witness :
    (onAnalogReport emptyDevice 4 1023).1.analog_pins 4 = 1023 ∧
    (onAnalogReport emptyDevice 4 1023).2 = [(4, 1023)] ∧
    (onAnalogReport (onAnalogReport emptyDevice 4 1023).1 4 1023).2 = [(4, 1023)] :=
  onAnalogReport_stores_and_notifies emptyDevice 4 1023 (by decide) (by decide)

theorem land_lor_self (d k : Nat) : (d ||| 2 ^ k) &&& 2 ^ k = 2 ^ k := by
  apply Nat.eq_of_testBit_eq
  intro j
  by_cases hjk : k = j
  · subst hjk
    simp [Nat.testBit_land, Nat.testBit_lor, Nat.testBit_two_pow_self]
  · simp [Nat.testBit_land, Nat.testBit_lor, Nat.testBit_two_pow_of_ne hjk]

theorem land_byteNot_self (d k : Nat) (hk : k < 8) :
    (d &&& byteNot (2 ^ k)) &&& 2 ^ k = 0 := by
  apply Nat.eq_of_testBit_eq
  intro j
  simp only [byteNot, Nat.testBit_land, Nat.testBit_xor, Nat.zero_testBit]
  by_cases hjk : k = j
  · subst hjk
    simp [Nat.testBit_two_pow_self, testBit_255_of_lt k hk]
  · simp [Nat.testBit_two_pow_of_ne hjk]

/-- Claim C8: writing an `OUTPUT` pin and reading it back, with no
intervening operation, returns the written state. -/
theorem digitalWrite_digitalRead_roundtrip (s : RemoteDevice) (pin : Nat) (st : Bool)
    (h : s.pin_mode pin = PinMode.OUTPUT) :
    (digitalRead (digitalWrite s pin st) pin).1 = st := by
  have hk : pin % 8 < 8 := Nat.mod_lt pin (by decide)
  simp only [digitalWrite, digitalRead, writePort, h, pinMask_eq, ne_eq,
    not_true_eq_false, if_false, Function.update_same]
  norm_num [PinMode.OUTPUT, PinMode.INPUT, PinMode.ANALOG]
  cases st
  · simp [land_byteNot_self _ _ hk]
  · simp [land_lor_self, Nat.two_pow_pos]

/-- Witness for the C8 theorem on a freshly initialized device. -/
theorem digitalWrite_digitalRead_roundtrip_witness :
    (digitalRead (digitalWrite emptyDevice 5 true) 5).1 = true :=
  digitalWrite_digitalRead_roundtrip emptyDevice 5 true rfl

/-- Claim C5 (counterexample): on a device with `analog_offset = 1` where
the pin the claim says is consulted (`analog_offset + 0 = 1`) is cached
`ANALOG` and analog index 0 caches 42, `analogRead("A0")` nevertheless
returns the sentinel `0xFFFF`: the named overload adds the offset and the
numeric overload adds it again, consulting pin `2` instead. -/
theorem analogReadName_counterexample :
    offsetDevice.pin_mode (offsetDevice.analog_offset + 0) = PinMode.ANALOG ∧
    offsetDevice.analog_pins 0 = 42 ∧
    (analogReadName offsetDevice ['A', '0']).1 = 0xFFFF := by
  exact ⟨rfl, rfl, by decide⟩

/-- Claim C5 (amended): `analogRead("A<i>")` calls the numeric overload at
`(i + analog_offset) % 256`, which adds the offset again: the cached mode
consulted is at pin index `(i + 2 * analog_offset) % 256`, and on success
the value returned is the cached analog value at analog index
`(i + analog_offset) % 256` (bounds-checked against `num_analog_pins`).
The claim as stated holds only when `analog_offset = 0`. -/
theorem analogReadName_double_offset (s : RemoteDevice) (name : List Char) (p : Nat)
    (hp : parsePinFromAnalogString name = p) (hp2 : p ≠ 255)
    (hmode : s.pin_mode ((p + 2 * s.analog_offset) % 256) = PinMode.ANALOG) :
    analogReadName s name =
      (if (p + s.analog_offset) % 256 < s.num_analog_pins
       then s.analog_pins ((p + s.analog_offset) % 256)
       else 0xFFFF, s) := by
  have hmod : (((p + s.analog_offset) % 256) + s.analog_offset) % 256
      = (p + 2 * s.analog_offset) % 256 := by
    rw [Nat.mod_add_mod]
    omega
  simp only [analogReadName, hp, if_neg hp2, analogRead, hmod, hmode]
  simp

/-- Witness for the amended C5 theorem: with `analog_offset = 1`,
`analogRead("A0")` consults pin 2 and reads analog index 1. -/
theorem analogReadName_double_offset_witness :
    analogReadName offsetDevice2 ['A', '0'] =
      (if (0 + offsetDevice2.analog_offset) % 256 < offsetDevice2.num_analog_pins
       then offsetDevice2.analog_pins ((0 + offsetDevice2.analog_offset) % 256)
       else 0xFFFF, offsetDevice2) :=
  analogReadName_double_offset offsetDevice2 ['A', '0'] 0 (by decide) (by decide)
    (by decide)

/-- Claim C6 (counterexample): the name `"A2x"` has a non-digit after its
digits, so the claim requires the parse-failure value 255; but `wcstol`
stops at the first non-digit and ignores the rest, so the parse accepts
it with value 2. -/
theorem parsePin_trailing_counterexample :
    parsePinFromAnalogString ['A', '2', 'x'] = 2 ∧ (2 : Nat) ≠ 255 := by
  exact ⟨by decide, by decide⟩

theorem wcstolDigits_le (cs : List Char) : ∀ acc, acc ≤ wcstolDigits cs acc := by
  induction cs with
  | nil => intro acc; exact Nat.le_refl _
  | cons c rest ih =>
    intro acc
    simp only [wcstolDigits]
    split
    · exact le_trans (by omega) (ih _)
    · exact Nat.le_refl _

theorem isDigit_not_wspace (c : Char) (h : c.isDigit = true) : isWSpace c = false := by
  have h1 : c ≠ ' ' := fun e => absurd (e ▸ h) (by decide)
  have h2 : c ≠ '\t' := fun e => absurd (e ▸ h) (by decide)
  have h3 : c ≠ '\n' := fun e => absurd (e ▸ h) (by decide)
  have h4 : c ≠ '\x0b' := fun e => absurd (e ▸ h) (by decide)
  have h5 : c ≠ '\x0c' := fun e => absurd (e ▸ h) (by decide)
  have h6 : c ≠ '\r' := fun e => absurd (e ▸ h) (by decide)
  simp [isWSpace, h1, h2, h3, h4, h5, h6]

theorem wcstolDigits_zero_head (d : Char) (rest : List Char)
    (hd0 : d.isDigit = true) (h : wcstolDigits (d :: rest) 0 = 0) : d = '0' := by
  simp only [wcstolDigits, hd0, if_true] at h
  have h2 := wcstolDigits_le rest (0 * 10 + (d.toNat - 48))
  rw [h] at h2
  have hb : 48 ≤ d.toNat ∧ d.toNat ≤ 57 := by
    simpa [Char.isDigit, Bool.and_eq_true, decide_eq_true_eq] using hd0
  have h3 : d ≤ '0' := by
    show d.toNat ≤ 48
    omega
  have h4 : '0' ≤ d := by
    show 48 ≤ d.toNat
    omega
  exact Char.le_antisymm h3 h4

theorem wcstol10_digit_head (d : Char) (rest : List Char) (hd0 : d.isDigit = true) :
    wcstol10 (d :: rest) = wcstolClamp ((wcstolDigits (d :: rest) 0 : Nat) : Int) := by
  have hdw : (d :: rest).dropWhile isWSpace = d :: rest := by
    simp [List.dropWhile_cons, isDigit_not_wspace d hd0]
  unfold wcstol10
  rw [hdw]
  split
  · next heq =>
    rw [List.cons.injEq] at heq
    rw [heq.1] at hd0
    exact absurd hd0 (by decide)
  · next heq =>
    rw [List.cons.injEq] at heq
    rw [heq.1] at hd0
    exact absurd hd0 (by decide)
  · rfl

/-- Claim C6 (amended): a name made of `'a'`/`'A'` followed by a non-empty
all-digit suffix is accepted with the suffix's decimal value (whenever
that value stays below the failure byte 255), and `"B2"`, `"A"` and `""`
fail — but acceptance is not only for such names: trailing characters
after the digit run are ignored rather than rejected (see the
counterexample `"A2x" ↦ 2`). -/
theorem parsePin_digit_names (c : Char) (ds : List Char)
    (hc : c = 'a' ∨ c = 'A') (hne : ds ≠ [])
    (hd : ∀ d ∈ ds, d.isDigit = true)
    (hv : wcstolDigits ds 0 < 255) :
    parsePinFromAnalogString (c :: ds) = wcstolDigits ds 0 ∧
    parsePinFromAnalogString ['B', '2'] = 255 ∧
    parsePinFromAnalogString ['A'] = 255 ∧
    parsePinFromAnalogString [] = 255 := by
  refine ⟨?_, by decide, by decide, by decide⟩
  obtain ⟨d, rest, rfl⟩ : ∃ d rest, ds = d :: rest := by
    cases ds with
    | nil => exact absurd rfl hne
    | cons d rest => exact ⟨d, rest, rfl⟩
  have hd0 : d.isDigit = true := hd d (by simp)
  have hlen : ¬ ((c :: d :: rest).length < 2) := by
    simp
  have hcl : wcstolClamp ((wcstolDigits (d :: rest) 0 : Nat) : Int)
      = ((wcstolDigits (d :: rest) 0 : Nat) : Int) := by
    unfold wcstolClamp
    split_ifs <;> omega
  unfold parsePinFromAnalogString
  rw [if_neg hlen]
  simp only [if_pos hc, wcstol10_digit_head d rest hd0, hcl]
  have hcond : ¬ (((wcstolDigits (d :: rest) 0 : Nat) : Int) = 0 ∧
      ¬ (d :: rest).head? = some '0') := by
    rintro ⟨h0, hh⟩
    have hv0 : wcstolDigits (d :: rest) 0 = 0 := by exact_mod_cast h0
    exact hh (by simp [wcstolDigits_zero_head d rest hd0 hv0])
  rw [if_neg hcond]
  have hlt : ((wcstolDigits (d :: rest) 0 : Nat) : Int) < 256 := by
    exact_mod_cast lt_trans hv (by norm_num)
  rw [Int.emod_eq_of_lt (by positivity) hlt, Int.toNat_natCast]

/-- Witness for the amended C6 theorem at the name `"A2"`. -/
theorem parsePin_digit_names_witness :
    parsePinFromAnalogString ['A', '2'] = wcstolDigits ['2'] 0 ∧
    parsePinFromAnalogString ['B', '2'] = 255 ∧
    parsePinFromAnalogString ['A'] = 255 ∧
    parsePinFromAnalogString [] = 255 :=
  parsePin_digit_names 'A' ['2'] (Or.inr rfl) (by decide) (by decide) (by decide)

theorem capScan_fst_eq_complete (data : List Nat) (mid : Bool) (i : Nat) :
    ∀ total offset nanalog,
      (capScan data mid i total offset nanalog).1 =
        total + (completeDescriptorScan data mid i).1 +
          (if (completeDescriptorScan data mid i).2 then 1 else 0) := by
  induction mid, i using completeDescriptorScan.induct data with
  | case1 mid i h h7 ih =>
    intro total offset nanalog
    rw [capScan.eq_def, completeDescriptorScan.eq_def]
    simp only [dif_pos h, if_pos h7]
    rw [ih]
    cases hb : (completeDescriptorScan data false (i + 1)).2 <;> simp [hb] <;> omega
  | case2 mid i h h7 hin ih =>
    intro total offset nanalog
    rw [capScan.eq_def, completeDescriptorScan.eq_def]
    simp only [dif_pos h, if_neg h7, if_pos hin]
    exact ih total offset nanalog
  | case3 mid i h h7 hin han ih =>
    intro total offset nanalog
    rw [capScan.eq_def, completeDescriptorScan.eq_def]
    simp only [dif_pos h, if_neg h7, if_neg hin, if_pos han]
    exact ih total (if offset = 0 then total else offset) (nanalog + 1)
  | case4 mid i h h7 hin han hp ih =>
    intro total offset nanalog
    rw [capScan.eq_def, completeDescriptorScan.eq_def]
    simp only [dif_pos h, if_neg h7, if_neg hin, if_neg han, if_pos hp]
    exact ih total offset nanalog
  | case5 mid i h h7 hin han hp ih =>
    intro total offset nanalog
    rw [capScan.eq_def, completeDescriptorScan.eq_def]
    simp only [dif_pos h, if_neg h7, if_neg hin, if_neg han, if_neg hp]
    exact ih total offset nanalog
  | case6 mid i h =>
    intro total offset nanalog
    rw [capScan.eq_def, completeDescriptorScan.eq_def]
    simp only [dif_neg h]
    cases mid <;> simp

/-- Claim C4 (amended): the capability scan terminates on every payload
(it is a total function whose every step advances the index), and it
leaves `total_pins` equal to the number of complete, `0x7F`-terminated
descriptors plus one when the payload ends in the middle of a descriptor
that never reached a terminator: the incomplete trailing descriptor is
also counted, not dropped. -/
theorem totalPins_counts_descriptors (data : List Nat) :
    (capParse data).1 =
      (completeDescriptorScan data false 0).1 +
        (if (completeDescriptorScan data false 0).2 then 1 else 0) := by
  simpa using capScan_fst_eq_complete data false 0 0 0 0

theorem subInv_initializeDevice (s : RemoteDevice) : SubInv (initializeDevice s) := by
  intro p hp
  simp [initializeDevice, Nat.zero_testBit, PinMode.OUTPUT, PinMode.INPUT]

theorem subInv_pinMode (s : RemoteDevice) (pin mode : Nat) (hs : SubInv s) :
    SubInv (pinMode s pin mode) := by
  intro p hp
  have hsp := hs p hp
  have hk : p % 8 < 8 := Nat.mod_lt p (by decide)
  by_cases hpp : p = pin
  · subst hpp
    by_cases hin : mode = PinMode.INPUT
    · simp [pinMode, hin, ite_apply, Function.update_same, pinMask_eq,
        Nat.testBit_lor, Nat.testBit_two_pow_self]
    · by_cases hold : s.pin_mode p = PinMode.INPUT
      · simp [pinMode, hin, hold, ite_apply, Function.update_same, pinMask_eq, byteNot,
          Nat.testBit_land, Nat.testBit_xor, Nat.testBit_two_pow_self,
          testBit_255_of_lt _ hk]
      · simp [pinMode, hin, hold, Function.update_same, hsp]
  · have hmode : Function.update s.pin_mode pin mode p = s.pin_mode p :=
      Function.update_noteq hpp _ _
    by_cases hport : pinPort p = pinPort pin
    · have hne8 : pin % 8 ≠ p % 8 := by
        have hqq : p / 8 = pin / 8 := by simpa [pinPort] using hport
        omega
      rw [hport] at hsp
      simp only [pinMode, hmode, ite_apply, hport, Function.update_same, pinMask_eq,
        byteNot]
      split
      · rw [Nat.testBit_lor, Nat.testBit_two_pow_of_ne hne8]
        simpa using hsp
      · split
        · rw [Nat.testBit_land, Nat.testBit_xor, Nat.testBit_two_pow_of_ne hne8,
            testBit_255_of_lt _ hk]
          simpa using hsp
        · exact hsp
    · simp only [pinMode, hmode, ite_apply, Function.update_noteq hport, ite_self]
      exact hsp

theorem subInv_writePort (s : RemoteDevice) (port mask : Nat) (st : Bool)
    (hs : SubInv s) : SubInv (writePort s port mask st) := by
  intro p hp
  simpa [writePort] using hs p hp

theorem subInv_digitalWrite (s : RemoteDevice) (pin : Nat) (st : Bool)
    (hs : SubInv s) : SubInv (digitalWrite s pin st) := by
  simp only [digitalWrite]
  split
  · split
    · exact subInv_writePort _ _ _ _ (subInv_pinMode s pin PinMode.OUTPUT hs)
    · exact hs
  · exact subInv_writePort _ _ _ _ hs

theorem subInv_digitalRead (s : RemoteDevice) (pin : Nat) (hs : SubInv s) :
    SubInv (digitalRead s pin).2 := by
  simp only [digitalRead]
  split
  · split
    · exact subInv_pinMode s pin PinMode.INPUT hs
    · exact hs
  · exact hs

theorem subInv_analogWrite (s : RemoteDevice) (pin value : Nat) (hs : SubInv s) :
    SubInv (analogWrite s pin value) := by
  simp only [analogWrite]
  split
  · split
    · have h2 := subInv_pinMode s pin PinMode.PWM hs
      intro p hp
      have h3 := h2 p hp
      simp only [pinMode] at h3 ⊢
      simpa [Function.update_idem] using h3
    · exact hs
  · exact hs

theorem subInv_analogRead (s : RemoteDevice) (pin : Nat) (hs : SubInv s) :
    SubInv (analogRead s pin).2 := by
  simp only [analogRead]
  split
  · split
    · exact subInv_pinMode s _ PinMode.ANALOG hs
    · exact hs
  · exact hs

theorem subInv_onDigitalReport (s : RemoteDevice) (port raw : Nat) (hs : SubInv s) :
    SubInv (onDigitalReport s port raw).1 := by
  intro p hp
  simpa [onDigitalReport] using hs p hp

theorem subInv_onAnalogReport (s : RemoteDevice) (pin value : Nat) (hs : SubInv s) :
    SubInv (onAnalogReport s pin value).1 := by
  intro p hp
  simpa [onAnalogReport] using hs p hp

/-- Claim C10: from initialization (all modes `OUTPUT`, all subscription
masks zero) every public cache operation — `pinMode` with any mode,
`digitalWrite`, `digitalRead`, `analogWrite`, `analogRead`, including
their auto-correction paths — and both inbound report callbacks preserve
the invariant that pin `p`'s bit in `subscribed_ports[p / 8]` is set
exactly when the cached mode of `p` is `INPUT`. -/
theorem subscription_invariant :
    (∀ s, SubInv (initializeDevice s)) ∧
    ∀ s, SubInv s →
      (∀ pin mode, SubInv (pinMode s pin mode)) ∧
      (∀ pin st, SubInv (digitalWrite s pin st)) ∧
      (∀ pin, SubInv (digitalRead s pin).2) ∧
      (∀ pin value, SubInv (analogWrite s pin value)) ∧
      (∀ pin, SubInv (analogRead s pin).2) ∧
      (∀ port raw, SubInv (onDigitalReport s port raw).1) ∧
      (∀ pin value, SubInv (onAnalogReport s pin value).1) := by
  refine ⟨subInv_initializeDevice, fun s hs => ⟨?_, ?_, ?_, ?_, ?_, ?_, ?_⟩⟩
  · exact fun pin mode => subInv_pinMode s pin mode hs
  · exact fun pin st => subInv_digitalWrite s pin st hs
  · exact fun pin => subInv_digitalRead s pin hs
  · exact fun pin value => subInv_analogWrite s pin value hs
  · exact fun pin => subInv_analogRead s pin hs
  · exact fun port raw => subInv_onDigitalReport s port raw hs
  · exact fun pin value => subInv_onAnalogReport s pin value hs

/-- Witness for the C10 theorem: the invariant holds on the freshly
initialized device and after then subscribing pin 5 as `INPUT`. -/
theorem subscription_invariant_witness :
    SubInv (pinMode (initializeDevice emptyDevice) 5 PinMode.INPUT) :=
  (subscription_invariant.2 (initializeDevice emptyDevice)
    (subscription_invariant.1 emptyDevice)).1 5 PinMode.INPUT

end RemoteWiring
